import Mathlib

/-!
Verification of the code-sample registry of the Zephyr Sphinx extension
(`doc/_extensions/zephyr/domain.py`).

The registry (`ZephyrDomain.data`) is a Python dict mapping a code-sample id
to its metadata, together with a second dict mapping a category name to its
description.  A Python dict is modelled as an ordered association list
(`List (String × α)`) with no duplicate keys: assignment `d[k] = v` replaces
the value in place when the key is present and appends otherwise, which is
exactly Python's insertion-order-preserving semantics, and `d.update(other)`
performs those assignments for each entry of `other` in order.

Description contents are docutils node subtrees in the source; every
operation verified here only ever uses their plain-text projection
(`astext()`), so descriptions are modelled as the projected strings.
-/

/-- One code sample record, exactly the dict built by
`CodeSampleDirective.run` (fields `id`, `name`, `description`,
`relevant-api`, `docname`). -/
structure CodeSample where
  id : String
  name : String
  description : String
  relevant_api : List String
  docname : String
  deriving DecidableEq

/-- The domain data (`ZephyrDomain.initial_data` shape): the
`"code-samples"` dict and the `"code-samples-categories"` dict. -/
structure DomainData where
  codeSamples : List (String × CodeSample)
  codeSamplesCategories : List (String × String)
  deriving DecidableEq

/-- Python dict assignment `d[k] = v`: replace in place when `k` is already
a key, append otherwise (insertion-order-preserving dict semantics). -/
def dictInsert {α : Type} : List (String × α) → String → α → List (String × α)
  | [], k, v => [(k, v)]
  | (k', v') :: rest, k, v =>
    if k' = k then (k, v) :: rest else (k', v') :: dictInsert rest k v

/-- Python `d.get(k)`: the value at the first (with unique keys: only)
occurrence of the key. -/
def dictGet {α : Type} (d : List (String × α)) (k : String) : Option α :=
  (d.find? (fun p => p.1 == k)).map Prod.snd

/-- Python `d.keys()` in insertion order. -/
def dictKeys {α : Type} (d : List (String × α)) : List String :=
  d.map Prod.fst

/-- Python `d.values()` in insertion order. -/
def dictValues {α : Type} (d : List (String × α)) : List α :=
  d.map Prod.snd

/-- Python `d.update(other)`: assign every entry of `other`, in order,
into `d`. -/
def dictUpdate {α : Type} (d other : List (String × α)) : List (String × α) :=
  other.foldl (fun acc p => dictInsert acc p.1 p.2) d

/-- Model of `ZephyrDomain.initial_data`: both dicts empty. -/
def initialData : DomainData :=
  { codeSamples := [], codeSamplesCategories := [] }

/-- Model of `ZephyrDomain.add_code_sample`:
`self.data["code-samples"][code_sample["id"]] = code_sample`. -/
def add_code_sample (data : DomainData) (code_sample : CodeSample) : DomainData :=
  { data with codeSamples := dictInsert data.codeSamples code_sample.id code_sample }

/-- Model of `ZephyrDomain.add_code_sample_category`:
`self.data["code-samples-categories"][name] = description`. -/
def add_code_sample_category (data : DomainData) (name description : String) : DomainData :=
  { data with
      codeSamplesCategories := dictInsert data.codeSamplesCategories name description }

/-- Model of `ZephyrDomain.clear_doc`: keep exactly the samples whose `docname`
differs from the removed document; categories are not touched (the source
carries a `TODO handle removal of categories`). -/
def clear_doc (data : DomainData) (docname : String) : DomainData :=
  { data with
      codeSamples := data.codeSamples.filter (fun p => p.2.docname != docname) }

/-- Model of `ZephyrDomain.merge_domaindata`: `dict.update` of both dicts with the
incoming shard's data. -/
def merge_domaindata (data otherdata : DomainData) : DomainData :=
  { codeSamples := dictUpdate data.codeSamples otherdata.codeSamples,
    codeSamplesCategories :=
      dictUpdate data.codeSamplesCategories otherdata.codeSamplesCategories }

/-- The reference node produced by `make_refnode` in
`ZephyrDomain.resolve_xref`: source document, target document, target
anchor, display text (the `contnode`) and tooltip (`title`). -/
structure RefNode where
  fromdocname : String
  todocname : String
  targetid : String
  display : String
  tooltip : String
  deriving DecidableEq

/-- Model of `ZephyrDomain.resolve_xref`: for a `code-sample` reference, look the
target up in the registry; when found, build a refnode whose display text is
the sample's `name` unless the reference carried explicit text
(`refexplicit`), and whose tooltip is the description's plain text; when the
target is absent (or the type is not `code-sample`) fall through and return
`None`. -/
def resolve_xref (data : DomainData) (fromdocname reftype target : String)
    (refexplicit : Bool) (contnode : String) : Option RefNode :=
  if reftype = "code-sample" then
    match dictGet data.codeSamples target with
    | some info =>
      some { fromdocname := fromdocname, todocname := info.docname,
             targetid := info.id,
             display := if refexplicit then contnode else info.name,
             tooltip := info.description }
    | none => none
  else
    none

/-- Helper for `pySplit`: scan the characters, accumulating the current
word (reversed); whitespace ends a word, empty pieces are dropped. -/
def pySplitAux : List Char → List Char → List String
  | [], cur => if cur.isEmpty then [] else [String.mk cur.reverse]
  | c :: cs, cur =>
    if c.isWhitespace then
      if cur.isEmpty then pySplitAux cs []
      else String.mk cur.reverse :: pySplitAux cs []
    else pySplitAux cs (c :: cur)

/-- Python `str.split()` with no separator: split on whitespace runs and
drop empty pieces (so `"".split() == []`). -/
def pySplit (s : String) : List String :=
  pySplitAux s.data []

/-- Model of `posixpath.dirname`: everything up to the final `/` (empty when there is
no `/`), with trailing slashes stripped unless the result consists only of
slashes. -/
def dirname (s : String) : String :=
  let head : List Char := (s.data.reverse.dropWhile (fun c => c ≠ '/')).reverse
  if head.isEmpty || head.all (fun c => c = '/') then String.mk head
  else String.mk ((head.reverse.dropWhile (fun c => c = '/')).reverse)

/-- Python `a.startswith(b)`: `b` is a character-wise prefix of `a`. -/
def pyStartswith (a b : String) : Bool :=
  List.isPrefixOf b.data a.data

/-- Python `str.casefold` (ASCII range, which is all the comparison keys
this extension sorts): lower-case every character. -/
def casefold (s : String) : String :=
  String.mk (s.data.map Char.toLower)

/-- Python string comparison `a < b`: code-point lexicographic order. -/
def pyStrLt : List Char → List Char → Bool
  | [], [] => false
  | [], _ :: _ => true
  | _ :: _, [] => false
  | a :: as, b :: bs => if a = b then pyStrLt as bs else decide (a < b)

/-- The sort key of `create_code_sample_definition_list`:
`lambda x: x["name"].casefold()`. -/
def sampleKey (cs : CodeSample) : List Char :=
  (casefold cs.name).data

/-- The total preorder realized by Python's stable `sorted` with that key:
`a` may come before `b` iff `b`'s key is not strictly smaller. -/
def sampleLE (a b : CodeSample) : Prop :=
  pyStrLt (sampleKey a) (sampleKey b) = true ∨ sampleKey a = sampleKey b

instance : DecidableRel sampleLE := fun _ _ =>
  inferInstanceAs (Decidable (_ ∨ _))

/-- Registering a whole sequence of samples, starting from the initial
(empty) domain data. -/
def registerAll (calls : List CodeSample) : DomainData :=
  calls.foldl add_code_sample initialData

/-- First-some choice on options, the shape of a lookup that falls back to
an older dict. -/
def optOr {α : Type} : Option α → Option α → Option α
  | some a, _ => some a
  | none, y => y

/-- Sample record with id blinky, name Blinky, document `samples/basic/blinky`,
from the spec's listing example. -/
def blinkySample : CodeSample :=
  { id := "blinky", name := "Blinky", description := "Blink an LED forever.",
    relevant_api := ["gpio_interface"], docname := "samples/basic/blinky" }

/-- Sample record with id abc, name ABC, document `samples/basic/abc`,
from the spec's listing example. -/
def abcSample : CodeSample :=
  { id := "abc", name := "ABC", description := "ABC sample.",
    relevant_api := [], docname := "samples/basic/abc" }

/-- The registry of the spec's listing example. -/
def exampleListingData : DomainData :=
  { codeSamples := [("blinky", blinkySample), ("abc", abcSample)],
    codeSamplesCategories := [] }

/-- A sample living in directory `samples/basicXYZ`, a raw string extension
of `samples/basic`. -/
def xyzSample : CodeSample :=
  { id := "xyz", name := "XYZ", description := "", relevant_api := [],
    docname := "samples/basicXYZ/foo" }

/-- A sample living in the listing document's own directory
`samples/basic`. -/
def ownDirSample : CodeSample :=
  { id := "own", name := "Own dir", description := "", relevant_api := [],
    docname := "samples/basic/other" }

/-- A registry holding the two samples above. -/
def xyzData : DomainData :=
  { codeSamples := [("xyz", xyzSample), ("own", ownDirSample)],
    codeSamplesCategories := [] }

/-- A one-sample, one-category shard used to exercise the merge. -/
def shardA : DomainData :=
  { codeSamples := [("a", { id := "a", name := "Alpha", description := "",
                            relevant_api := [], docname := "samples/a/doc" })],
    codeSamplesCategories := [("ca", "category a")] }

/-- A second shard, key-disjoint from `shardA`. -/
def shardB : DomainData :=
  { codeSamples := [("b", { id := "b", name := "Beta", description := "",
                            relevant_api := [], docname := "samples/b/doc" })],
    codeSamplesCategories := [("cb", "category b")] }

/-- Model of `create_code_sample_definition_list`: sort the samples by casefolded
name (Python `sorted` is a stable sort by `≤` on the keys, as is insertion
sort) and render each as a definition-list item whose term text is the
sample's `name` and whose definition text is the description's plain text. -/
def create_code_sample_definition_list (code_samples : List CodeSample) :
    List (String × String) :=
  (List.insertionSort sampleLE code_samples).map (fun cs => (cs.name, cs.description))

/-- The filter of `CodeSampleListingDirective.run`: keep the registered
samples whose document's directory starts (as a raw string) with the listing
document's directory. -/
def listingFilter (data : DomainData) (envDocname : String) : List CodeSample :=
  (dictValues data.codeSamples).filter
    (fun cs => pyStartswith (dirname cs.docname) (dirname envDocname))

/-- The definition list built by `CodeSampleListingDirective.run`. -/
def codeSampleListingRun (data : DomainData) (envDocname : String) :
    List (String × String) :=
  create_code_sample_definition_list (listingFilter data envDocname)

/-- The filter of `ProcessRelatedCodeSamplesNode.run`: keep the registered
samples whose `relevant-api` list contains the doxygen group id. -/
def relatedCodeSamples (data : DomainData) (groupId : String) : List CodeSample :=
  (dictValues data.codeSamples).filter (fun cs => cs.relevant_api.contains groupId)

/-- Model of `ProcessRelatedCodeSamplesNode.run` on one node: when at least one
sample references the group, replace the node with an admonition holding the
definition list; otherwise remove the node (`none`). -/
def processRelatedCodeSamplesRun (data : DomainData) (groupId : String) :
    Option (List (String × String)) :=
  let code_samples := relatedCodeSamples data groupId
  if 0 < code_samples.length then
    some (create_code_sample_definition_list code_samples)
  else
    none

/-- The duplicate-registration warning emitted by `CodeSampleDirective.run`:
it names the colliding id and the `docname` of the already-registered
sample. -/
structure DuplicateWarning where
  sampleId : String
  previousDocname : String
  deriving DecidableEq

/-- Model of `CodeSampleDirective.run` (registry-relevant part): warn when the id is
already registered (naming the previous owner's `docname`), default `name`
to the id, default `relevant-api` to the empty string before whitespace
splitting, then register the sample via `add_code_sample`.  Returns the
warnings emitted (a list: the source emits one per duplicate, none
otherwise; nothing is raised) and the updated domain data. -/
def codeSampleDirectiveRun (data : DomainData) (envDocname code_sample_id : String)
    (nameOption relevantApiOption : Option String) (content : String) :
    List DuplicateWarning × DomainData :=
  let warnings :=
    match dictGet data.codeSamples code_sample_id with
    | some prev => [{ sampleId := code_sample_id, previousDocname := prev.docname }]
    | none => []
  let name := nameOption.getD code_sample_id
  let relevant_api_list := pySplit (relevantApiOption.getD "")
  let code_sample : CodeSample :=
    { id := code_sample_id, name := name, description := content,
      relevant_api := relevant_api_list, docname := envDocname }
  (warnings, add_code_sample data code_sample)

theorem pyStrLt_trichotomy (x : List Char) :
    ∀ y, pyStrLt x y = true ∨ x = y ∨ pyStrLt y x = true := by
  induction x with
  | nil =>
    intro y
    cases y with
    | nil => exact Or.inr (Or.inl rfl)
    | cons b bs => exact Or.inl rfl
  | cons a as ih =>
    intro y
    cases y with
    | nil => exact Or.inr (Or.inr rfl)
    | cons b bs =>
      rcases lt_trichotomy a b with hab | hab | hab
      · refine Or.inl ?_
        simp [pyStrLt, ne_of_lt hab, hab]
      · subst hab
        rcases ih bs with h | h | h
        · exact Or.inl (by simp [pyStrLt, h])
        · exact Or.inr (Or.inl (by rw [h]))
        · exact Or.inr (Or.inr (by simp [pyStrLt, h]))
      · refine Or.inr (Or.inr ?_)
        simp [pyStrLt, ne_of_lt hab, (ne_of_lt hab).symm, hab]

theorem pyStrLt_trans :
    ∀ {x y z : List Char}, pyStrLt x y = true → pyStrLt y z = true → pyStrLt x z = true := by
  intro x
  induction x with
  | nil =>
    intro y z hxy hyz
    cases y with
    | nil => simp [pyStrLt] at hxy
    | cons b bs =>
      cases z with
      | nil => simp [pyStrLt] at hyz
      | cons c cs => simp [pyStrLt]
  | cons a as ih =>
    intro y z hxy hyz
    cases y with
    | nil => simp [pyStrLt] at hxy
    | cons b bs =>
      cases z with
      | nil => simp [pyStrLt] at hyz
      | cons c cs =>
        by_cases hab : a = b <;> by_cases hbc : b = c
        · subst hab; subst hbc
          simp only [pyStrLt, if_pos rfl] at hxy hyz ⊢
          exact ih hxy hyz
        · subst hab
          simpa [pyStrLt, hbc] using hyz
        · subst hbc
          simpa [pyStrLt, hab] using hxy
        · simp only [pyStrLt, if_neg hab] at hxy
          simp only [pyStrLt, if_neg hbc] at hyz
          have hac : a < c := lt_trans (of_decide_eq_true hxy) (of_decide_eq_true hyz)
          simp [pyStrLt, ne_of_lt hac, hac]

instance : IsTotal CodeSample sampleLE where
  total a b := by
    rcases pyStrLt_trichotomy (sampleKey a) (sampleKey b) with h | h | h
    · exact Or.inl (Or.inl h)
    · exact Or.inl (Or.inr h)
    · exact Or.inr (Or.inl h)

instance : IsTrans CodeSample sampleLE where
  trans _ _ _ hab hbc := by
    rcases hab with hab | hab <;> rcases hbc with hbc | hbc
    · exact Or.inl (pyStrLt_trans hab hbc)
    · exact Or.inl (hbc ▸ hab)
    · exact Or.inl (hab ▸ hbc)
    · exact Or.inr (hab.trans hbc)

theorem isPrefixOf_self (l : List Char) : List.isPrefixOf l l = true := by
  induction l with
  | nil => rfl
  | cons c cs ih => simp [List.isPrefixOf, ih]

theorem optOr_none_right {α : Type} (x : Option α) : optOr x none = x := by
  cases x <;> rfl

theorem dictGet_nil {α : Type} (k : String) :
    dictGet ([] : List (String × α)) k = none := rfl

theorem dictKeys_nil {α : Type} : dictKeys ([] : List (String × α)) = [] := rfl

theorem dictKeys_cons {α : Type} (k' : String) (v' : α) (d : List (String × α)) :
    dictKeys ((k', v') :: d) = k' :: dictKeys d := rfl

theorem dictGet_cons {α : Type} (k' : String) (v' : α) (d : List (String × α)) (k : String) :
    dictGet ((k', v') :: d) k = if k' = k then some v' else dictGet d k := by
  by_cases h : k' = k
  · subst h
    simp [dictGet, List.find?]
  · simp [dictGet, List.find?, beq_false_of_ne h, h]

theorem dictGet_dictInsert {α : Type} (d : List (String × α)) (k : String) (v : α)
    (i : String) :
    dictGet (dictInsert d k v) i = if i = k then some v else dictGet d i := by
  induction d with
  | nil =>
    by_cases h : i = k
    · subst h
      simp [dictInsert, dictGet_cons]
    · have h2 : ¬ k = i := fun h' => h h'.symm
      simp [dictInsert, dictGet_cons, h, h2, dictGet_nil]
  | cons p rest ih =>
    obtain ⟨k', v'⟩ := p
    by_cases hk : k' = k
    · subst hk
      by_cases hi : i = k'
      · subst hi
        simp [dictInsert, dictGet_cons]
      · have h2 : ¬ k' = i := fun h' => hi h'.symm
        simp [dictInsert, dictGet_cons, hi, h2]
    · by_cases hi : k' = i
      · have hik : ¬ i = k := fun h' => hk (hi.trans h')
        simp [dictInsert, hk, dictGet_cons, hi, hik]
      · simp [dictInsert, hk, dictGet_cons, hi, ih]

theorem dictKeys_dictInsert {α : Type} (d : List (String × α)) (k : String) (v : α) :
    dictKeys (dictInsert d k v) =
      if k ∈ dictKeys d then dictKeys d else dictKeys d ++ [k] := by
  induction d with
  | nil => simp [dictInsert, dictKeys]
  | cons p rest ih =>
    obtain ⟨k', v'⟩ := p
    by_cases hk : k' = k
    · subst hk
      simp [dictInsert, dictKeys_cons]
    · have h2 : ¬ k = k' := fun h' => hk h'.symm
      by_cases hmem : k ∈ dictKeys rest
      · simp [dictInsert, hk, dictKeys_cons, ih, hmem, h2]
      · simp [dictInsert, hk, dictKeys_cons, ih, hmem, h2]

theorem nodup_dictKeys_dictInsert {α : Type} (d : List (String × α)) (k : String) (v : α)
    (h : (dictKeys d).Nodup) : (dictKeys (dictInsert d k v)).Nodup := by
  rw [dictKeys_dictInsert]
  by_cases hmem : k ∈ dictKeys d
  · simpa [hmem] using h
  · rw [if_neg hmem]
    refine List.Nodup.append h (List.nodup_singleton k) ?_
    intro a ha hak
    rw [List.mem_singleton] at hak
    subst hak
    exact hmem ha

theorem length_dictInsert {α : Type} (d : List (String × α)) (k : String) (v : α) :
    (dictInsert d k v).length =
      if k ∈ dictKeys d then d.length else d.length + 1 := by
  induction d with
  | nil => simp [dictInsert, dictKeys]
  | cons p rest ih =>
    obtain ⟨k', v'⟩ := p
    by_cases hk : k' = k
    · subst hk
      simp [dictInsert, dictKeys_cons]
    · have h2 : ¬ k = k' := fun h' => hk h'.symm
      by_cases hmem : k ∈ dictKeys rest
      · simp [dictInsert, hk, dictKeys_cons, ih, hmem, h2]
      · simp [dictInsert, hk, dictKeys_cons, ih, hmem, h2]

theorem mem_dictKeys_iff_isSome {α : Type} (d : List (String × α)) (i : String) :
    i ∈ dictKeys d ↔ (dictGet d i).isSome = true := by
  induction d with
  | nil => simp [dictKeys_nil, dictGet_nil]
  | cons p rest ih =>
    obtain ⟨k', v'⟩ := p
    rw [dictKeys_cons, dictGet_cons]
    by_cases h : k' = i
    · simp [h]
    · have h2 : ¬ i = k' := fun h' => h h'.symm
      simp [h, h2, ih]

theorem dictGet_eq_none_of_not_mem {α : Type} (d : List (String × α)) (i : String)
    (h : i ∉ dictKeys d) : dictGet d i = none := by
  rcases hg : dictGet d i with _ | v
  · rfl
  · exact absurd ((mem_dictKeys_iff_isSome d i).2 (by simp [hg])) h

theorem mem_dictKeys_of_dictGet_eq_some {α : Type} (d : List (String × α)) (i : String)
    (v : α) (h : dictGet d i = some v) : i ∈ dictKeys d :=
  (mem_dictKeys_iff_isSome d i).2 (by simp [h])

theorem dictGet_foldl_add (calls : List CodeSample) (data : DomainData) (i : String) :
    dictGet (calls.foldl add_code_sample data).codeSamples i =
      optOr ((calls.filter (fun cs => cs.id == i)).getLast?)
        (dictGet data.codeSamples i) := by
  induction calls using List.reverseRecOn with
  | nil => rfl
  | append_singleton cs c ih =>
    rw [List.foldl_append, List.foldl_cons, List.foldl_nil, List.filter_append]
    simp only [add_code_sample, dictGet_dictInsert]
    by_cases h : i = c.id
    · have hb : (c.id == i) = true := by simp [h]
      simp [h, hb, List.filter_singleton, List.getLast?_concat, optOr]
    · have hb : (c.id == i) = false := beq_false_of_ne (fun h' => h h'.symm)
      simp [h, hb, List.filter_singleton, ih]

theorem nodup_dictKeys_foldl_add (calls : List CodeSample) (data : DomainData)
    (h : (dictKeys data.codeSamples).Nodup) :
    (dictKeys (calls.foldl add_code_sample data).codeSamples).Nodup := by
  induction calls generalizing data with
  | nil => exact h
  | cons c cs ih =>
    rw [List.foldl_cons]
    exact ih (add_code_sample data c) (nodup_dictKeys_dictInsert _ _ _ h)

theorem dictGet_dictUpdate_filter {α : Type} (B A : List (String × α)) (k : String) :
    dictGet (dictUpdate A B) k =
      optOr (((B.filter (fun p => p.1 == k)).getLast?).map Prod.snd) (dictGet A k) := by
  induction B using List.reverseRecOn with
  | nil => rfl
  | append_singleton bs p ih =>
    obtain ⟨k', v'⟩ := p
    rw [dictUpdate, List.foldl_append, List.foldl_cons, List.foldl_nil, List.filter_append]
    rw [show (bs.foldl (fun acc p => dictInsert acc p.1 p.2) A) = dictUpdate A bs from rfl]
    rw [dictGet_dictInsert]
    by_cases h : k = k'
    · have hb : (k' == k) = true := by simp [h]
      simp [h, hb, List.filter_singleton, List.getLast?_concat, optOr]
    · have hb : (k' == k) = false := beq_false_of_ne (fun h' => h h'.symm)
      simp [h, hb, List.filter_singleton, ih]

theorem getLast?_filter_eq_dictGet {α : Type} (B : List (String × α)) (k : String)
    (h : (dictKeys B).Nodup) :
    ((B.filter (fun p => p.1 == k)).getLast?).map Prod.snd = dictGet B k := by
  induction B with
  | nil => rfl
  | cons p rest ih =>
    obtain ⟨k', v'⟩ := p
    rw [dictKeys_cons, List.nodup_cons] at h
    rw [List.filter_cons, dictGet_cons]
    by_cases hk : k' = k
    · subst hk
      have hnil : rest.filter (fun p => p.1 == k') = [] := by
        refine List.filter_eq_nil_iff.2 ?_
        intro p hp hbp
        exact h.1 (by
          have : p.1 = k' := by simpa using hbp
          exact this ▸ List.mem_map_of_mem Prod.fst hp)
      simp [hnil]
    · have hb : (k' == k) = false := beq_false_of_ne hk
      rw [if_neg (by simp [hb]), ih h.2, if_neg hk]

theorem dictGet_dictUpdate {α : Type} (A B : List (String × α)) (k : String)
    (hB : (dictKeys B).Nodup) :
    dictGet (dictUpdate A B) k = optOr (dictGet B k) (dictGet A k) := by
  rw [dictGet_dictUpdate_filter, getLast?_filter_eq_dictGet B k hB]

theorem length_dictUpdate {α : Type} (A B : List (String × α))
    (hB : (dictKeys B).Nodup) (hd : ∀ p ∈ B, p.1 ∉ dictKeys A) :
    (dictUpdate A B).length = A.length + B.length := by
  induction B generalizing A with
  | nil => simp [dictUpdate]
  | cons p rest ih =>
    obtain ⟨k', v'⟩ := p
    rw [dictKeys_cons, List.nodup_cons] at hB
    have hknA : k' ∉ dictKeys A := hd (k', v') (List.mem_cons_self (k', v') rest)
    have hrest : ∀ q ∈ rest, q.1 ∉ dictKeys (dictInsert A k' v') := by
      intro q hq
      rw [dictKeys_dictInsert, if_neg hknA]
      intro hmem
      rcases List.mem_append.1 hmem with hmem | hmem
      · exact hd q (List.mem_cons_of_mem _ hq) hmem
      · rw [List.mem_singleton] at hmem
        exact hB.1 (hmem ▸ List.mem_map_of_mem Prod.fst hq)
    rw [show dictUpdate A ((k', v') :: rest) = dictUpdate (dictInsert A k' v') rest from rfl]
    rw [ih (dictInsert A k' v') hB.2 hrest, length_dictInsert, if_neg hknA]
    simp only [List.length_cons]
    omega

/-- Claim C1: for every sequence of `register_sample` calls
(`add_code_sample` registrations), the final registry has no duplicate ids,
its keys are exactly the ids that were registered, and the entry stored
under each id is the payload of the last call made with that id (last write
wins on collision). -/
theorem register_sample_last_write_wins (calls : List CodeSample) :
    (dictKeys (registerAll calls).codeSamples).Nodup ∧
    (∀ i : String, i ∈ dictKeys (registerAll calls).codeSamples ↔
      i ∈ calls.map CodeSample.id) ∧
    ∀ i : String,
      dictGet (registerAll calls).codeSamples i =
        (calls.filter (fun cs => cs.id == i)).getLast? := by
  have hget : ∀ i, dictGet (registerAll calls).codeSamples i =
      (calls.filter (fun cs => cs.id == i)).getLast? := by
    intro i
    rw [registerAll, dictGet_foldl_add]
    rw [show dictGet initialData.codeSamples i = none from rfl, optOr_none_right]
  refine ⟨?_, ?_, hget⟩
  · exact nodup_dictKeys_foldl_add calls initialData (by simp [initialData, dictKeys_nil])
  · intro i
    rw [mem_dictKeys_iff_isSome, hget]
    constructor
    · intro h
      rcases Option.isSome_iff_exists.1 h with ⟨cs, hcs⟩
      rcases List.mem_getLast?_eq_getLast (show cs ∈ _ from hcs) with ⟨hne, hcseq⟩
      have hmemf : cs ∈ calls.filter (fun cs => cs.id == i) :=
        hcseq ▸ List.getLast_mem hne
      rcases List.mem_filter.1 hmemf with ⟨hmm, hbe⟩
      exact List.mem_map.2 ⟨cs, hmm, by simpa using hbe⟩
    · intro h
      rcases List.mem_map.1 h with ⟨cs, hmm, hid⟩
      have hmemf : cs ∈ calls.filter (fun cs => cs.id == i) :=
        List.mem_filter.2 ⟨hmm, by simp [hid]⟩
      exact List.getLast?_isSome.2 (List.ne_nil_of_mem hmemf)

/-- Claim C2: registering a sample whose id is already in the registry
emits exactly one duplicate warning, which names the `docname` of the
previously registered sample, and still overwrites the entry with the new
payload; registering a fresh id emits no warning.  The run is a total
function: no exception is modelled because the source raises none. -/
theorem duplicate_registration_warning (data : DomainData)
    (envDocname code_sample_id : String) (nameOption relevantApiOption : Option String)
    (content : String) :
    ((∃ prev, dictGet data.codeSamples code_sample_id = some prev ∧
        (codeSampleDirectiveRun data envDocname code_sample_id nameOption
          relevantApiOption content).1 =
          [{ sampleId := code_sample_id, previousDocname := prev.docname }]) ∨
      (dictGet data.codeSamples code_sample_id = none ∧
        (codeSampleDirectiveRun data envDocname code_sample_id nameOption
          relevantApiOption content).1 = [])) ∧
    dictGet (codeSampleDirectiveRun data envDocname code_sample_id nameOption
        relevantApiOption content).2.codeSamples code_sample_id =
      some { id := code_sample_id, name := nameOption.getD code_sample_id,
             description := content,
             relevant_api := pySplit (relevantApiOption.getD ""),
             docname := envDocname } := by
  constructor
  · rcases hprev : dictGet data.codeSamples code_sample_id with _ | prev
    · exact Or.inr ⟨rfl, by simp [codeSampleDirectiveRun, hprev]⟩
    · exact Or.inl ⟨prev, rfl, by simp [codeSampleDirectiveRun, hprev]⟩
  · simp [codeSampleDirectiveRun, add_code_sample, dictGet_dictInsert]

/-- Claim C3: `clear_doc d` keeps a sample entry exactly when it was
already present and its `docname` differs from `d`, and it leaves the
categories dict completely unchanged. -/
theorem clear_doc_removes_exactly_doc (data : DomainData) (d : String) :
    (∀ p : String × CodeSample,
      p ∈ (clear_doc data d).codeSamples ↔
        p ∈ data.codeSamples ∧ p.2.docname ≠ d) ∧
    (clear_doc data d).codeSamplesCategories = data.codeSamplesCategories := by
  refine ⟨fun p => ?_, rfl⟩
  simp [clear_doc, List.mem_filter]

/-- Claim C4: resolving a `code-sample` cross-reference returns the lookup
of the target mapped to a refnode whose display text is the sample's `name`
when no explicit override text was given and the override text otherwise;
in particular an absent target yields `none` (no link, no exception). -/
theorem resolve_xref_display_and_miss (data : DomainData)
    (fromdocname target contnode : String) (refexplicit : Bool) :
    resolve_xref data fromdocname "code-sample" target refexplicit contnode =
      (dictGet data.codeSamples target).map (fun info =>
        { fromdocname := fromdocname, todocname := info.docname,
          targetid := info.id,
          display := if refexplicit then contnode else info.name,
          tooltip := info.description }) := by
  rcases h : dictGet data.codeSamples target with _ | info <;>
    simp [resolve_xref, h]

/-- Claim C8: a sample declared without a `:name:` option is registered
with `name` equal to its id, and one declared without a `:relevant-api:`
option is registered with an empty `relevant_api` list (the other option
may or may not be present in either case). -/
theorem option_defaults (data : DomainData) (envDocname code_sample_id content : String)
    (nameOption relevantApiOption : Option String) :
    (dictGet (codeSampleDirectiveRun data envDocname code_sample_id none
        relevantApiOption content).2.codeSamples code_sample_id).map CodeSample.name =
      some code_sample_id ∧
    (dictGet (codeSampleDirectiveRun data envDocname code_sample_id nameOption
        none content).2.codeSamples code_sample_id).map CodeSample.relevant_api =
      some [] := by
  constructor
  · simp [codeSampleDirectiveRun, add_code_sample, dictGet_dictInsert]
  · simp [codeSampleDirectiveRun, add_code_sample, dictGet_dictInsert]
    rfl

/-- Claim C5: merging shard `B` into `A` is a key-wise union of both dicts
in which `B`'s entry wins on any id present in both, and on disjoint key
sets the merged dict has exactly `|A| + |B|` entries; the same holds for
the categories dict keyed by name.  `B`'s dicts have unique keys, as every
Python dict does. -/
theorem merge_domaindata_key_union (A B : DomainData)
    (hB : (dictKeys B.codeSamples).Nodup)
    (hBc : (dictKeys B.codeSamplesCategories).Nodup) :
    (∀ k, dictGet (merge_domaindata A B).codeSamples k =
        optOr (dictGet B.codeSamples k) (dictGet A.codeSamples k)) ∧
    (∀ k, dictGet (merge_domaindata A B).codeSamplesCategories k =
        optOr (dictGet B.codeSamplesCategories k)
          (dictGet A.codeSamplesCategories k)) ∧
    ((∀ k ∈ dictKeys B.codeSamples, k ∉ dictKeys A.codeSamples) →
      (merge_domaindata A B).codeSamples.length =
        A.codeSamples.length + B.codeSamples.length) ∧
    ((∀ k ∈ dictKeys B.codeSamplesCategories, k ∉ dictKeys A.codeSamplesCategories) →
      (merge_domaindata A B).codeSamplesCategories.length =
        A.codeSamplesCategories.length + B.codeSamplesCategories.length) := by
  refine ⟨fun k => ?_, fun k => ?_, fun hd => ?_, fun hd => ?_⟩
  · exact dictGet_dictUpdate _ _ k hB
  · exact dictGet_dictUpdate _ _ k hBc
  · exact length_dictUpdate _ _ hB
      (fun p hp => hd p.1 (List.mem_map_of_mem Prod.fst hp))
  · exact length_dictUpdate _ _ hBc
      (fun p hp => hd p.1 (List.mem_map_of_mem Prod.fst hp))

/-- Witness for `merge_domaindata_key_union` on two concrete disjoint
one-entry shards. -/
theorem merge_domaindata_key_union_witness :
    (dictKeys shardB.codeSamples).Nodup ∧
    (dictKeys shardB.codeSamplesCategories).Nodup ∧
    (∀ k ∈ dictKeys shardB.codeSamples, k ∉ dictKeys shardA.codeSamples) ∧
    (merge_domaindata shardA shardB).codeSamples.length =
      shardA.codeSamples.length + shardB.codeSamples.length ∧
    dictGet (merge_domaindata shardA shardB).codeSamples "b" =
      optOr (dictGet shardB.codeSamples "b") (dictGet shardA.codeSamples "b") :=
  ⟨by decide, by decide, by decide,
    (merge_domaindata_key_union shardA shardB (by decide) (by decide)).2.2.1 (by decide),
    (merge_domaindata_key_union shardA shardB (by decide) (by decide)).1 "b"⟩

/-- Claim C9: when the two shards register no common sample id, merging `B`
into `A` and merging `A` into `B` give registries with the same lookup at
every id (Python dict equality ignores insertion order). -/
theorem merge_comm_of_disjoint_ids (A B : DomainData)
    (hA : (dictKeys A.codeSamples).Nodup) (hB : (dictKeys B.codeSamples).Nodup)
    (hd : ∀ k ∈ dictKeys A.codeSamples, k ∉ dictKeys B.codeSamples) :
    ∀ k, dictGet (merge_domaindata A B).codeSamples k =
      dictGet (merge_domaindata B A).codeSamples k := by
  intro k
  rw [show (merge_domaindata A B).codeSamples =
    dictUpdate A.codeSamples B.codeSamples from rfl]
  rw [show (merge_domaindata B A).codeSamples =
    dictUpdate B.codeSamples A.codeSamples from rfl]
  rw [dictGet_dictUpdate _ _ k hB, dictGet_dictUpdate _ _ k hA]
  rcases hga : dictGet A.codeSamples k with _ | v
  · rw [optOr_none_right]
    rfl
  · have hgb : dictGet B.codeSamples k = none :=
      dictGet_eq_none_of_not_mem _ _
        (hd k (mem_dictKeys_of_dictGet_eq_some _ _ _ hga))
    rw [hgb]
    rfl

/-- Witness for `merge_comm_of_disjoint_ids` on the two concrete disjoint
shards. -/
theorem merge_comm_of_disjoint_ids_witness :
    (dictKeys shardA.codeSamples).Nodup ∧
    (dictKeys shardB.codeSamples).Nodup ∧
    (∀ k ∈ dictKeys shardA.codeSamples, k ∉ dictKeys shardB.codeSamples) ∧
    dictGet (merge_domaindata shardA shardB).codeSamples "a" =
      dictGet (merge_domaindata shardB shardA).codeSamples "a" :=
  ⟨by decide, by decide, by decide,
    merge_comm_of_disjoint_ids shardA shardB (by decide) (by decide) (by decide) "a"⟩

/-- Claim C6: the code-sample listing's definition list holds exactly the
registered samples whose document directory string-starts-with the listing
document's directory, in case-insensitively sorted order by name, and on
the spec's example registry the listing under `samples/basic` renders the
names `ABC`, `Blinky` in that order. -/
theorem code_sample_listing_contents :
    (∀ (data : DomainData) (envDocname : String) (t : String × String),
      t ∈ codeSampleListingRun data envDocname ↔
        ∃ cs, cs ∈ dictValues data.codeSamples ∧
          pyStartswith (dirname cs.docname) (dirname envDocname) = true ∧
          cs.name = t.1 ∧ cs.description = t.2) ∧
    (∀ (data : DomainData) (envDocname : String),
      (codeSampleListingRun data envDocname).Pairwise
        (fun a b => pyStrLt (casefold a.1).data (casefold b.1).data = true ∨
          (casefold a.1).data = (casefold b.1).data)) ∧
    (codeSampleListingRun exampleListingData "samples/basic/index").map Prod.fst =
      ["ABC", "Blinky"] := by
  refine ⟨fun data envDocname t => ?_, fun data envDocname => ?_, by decide⟩
  · rw [codeSampleListingRun, create_code_sample_definition_list, List.mem_map]
    constructor
    · rintro ⟨cs, hcs, rfl⟩
      have hmem : cs ∈ listingFilter data envDocname :=
        (List.perm_insertionSort sampleLE _).mem_iff.1 hcs
      rcases List.mem_filter.1 hmem with ⟨hv, hpred⟩
      exact ⟨cs, hv, hpred, rfl, rfl⟩
    · rintro ⟨cs, hv, hpred, h1, h2⟩
      refine ⟨cs, ?_, ?_⟩
      · exact (List.perm_insertionSort sampleLE _).mem_iff.2
          (List.mem_filter.2 ⟨hv, hpred⟩)
      · obtain ⟨t1, t2⟩ := t
        simp only at h1 h2
        rw [h1, h2]
  · rw [codeSampleListingRun, create_code_sample_definition_list]
    exact List.Pairwise.map _ (fun a b hab => hab)
      (List.sorted_insertionSort sampleLE (listingFilter data envDocname))

/-- Claim C7: the related-code-samples lookup selects exactly the
registered samples whose `relevant-api` list contains the group id, renders
them through the same case-insensitively sorted definition list as the
other listings, and produces nothing (the node is removed) precisely when
no registered sample references the group. -/
theorem related_code_samples_selection :
    (∀ (data : DomainData) (groupId : String) (cs : CodeSample),
      cs ∈ relatedCodeSamples data groupId ↔
        cs ∈ dictValues data.codeSamples ∧ groupId ∈ cs.relevant_api) ∧
    (∀ (data : DomainData) (groupId : String),
      (create_code_sample_definition_list (relatedCodeSamples data groupId)).Pairwise
        (fun a b => pyStrLt (casefold a.1).data (casefold b.1).data = true ∨
          (casefold a.1).data = (casefold b.1).data)) ∧
    (∀ (data : DomainData) (groupId : String),
      processRelatedCodeSamplesRun data groupId = none ↔
        ∀ cs ∈ dictValues data.codeSamples, groupId ∉ cs.relevant_api) := by
  have hmem : ∀ (data : DomainData) (groupId : String) (cs : CodeSample),
      cs ∈ relatedCodeSamples data groupId ↔
        cs ∈ dictValues data.codeSamples ∧ groupId ∈ cs.relevant_api := by
    intro data groupId cs
    rw [relatedCodeSamples, List.mem_filter]
    simp
  refine ⟨hmem, fun data groupId => ?_, fun data groupId => ?_⟩
  · rw [create_code_sample_definition_list]
    exact List.Pairwise.map _ (fun a b hab => hab)
      (List.sorted_insertionSort sampleLE (relatedCodeSamples data groupId))
  · rw [processRelatedCodeSamplesRun]
    by_cases h : 0 < (relatedCodeSamples data groupId).length
    · rw [if_pos h]
      simp only [reduceCtorEq, false_iff]
      intro hall
      rcases List.exists_mem_of_ne_nil _ (List.length_pos.1 h) with ⟨cs, hcs⟩
      rcases (hmem data groupId cs).1 hcs with ⟨hv, hapi⟩
      exact hall cs hv hapi
    · rw [if_neg h]
      have hnil : relatedCodeSamples data groupId = [] :=
        List.length_eq_zero.1 (by omega)
      simp only [true_iff]
      intro cs hv hapi
      have : cs ∈ relatedCodeSamples data groupId := (hmem data groupId cs).2 ⟨hv, hapi⟩
      rw [hnil] at this
      exact List.not_mem_nil cs this

/-- Claim C10: the listing's inclusion test is a raw string-prefix
comparison of directory components: a sample is kept iff its document's
directory string-starts-with the listing document's directory, so the
sample in directory `samples/basicXYZ` is included in the listing whose
document is `samples/basic/index`, and a sample whose directory equals the
listing document's directory is always included. -/
theorem listing_prefix_is_raw_string_test :
    (∀ (data : DomainData) (envDocname : String) (cs : CodeSample),
      cs ∈ listingFilter data envDocname ↔
        cs ∈ dictValues data.codeSamples ∧
        pyStartswith (dirname cs.docname) (dirname envDocname) = true) ∧
    xyzSample ∈ listingFilter xyzData "samples/basic/index" ∧
    (∀ (data : DomainData) (envDocname : String) (cs : CodeSample),
      cs ∈ dictValues data.codeSamples → dirname cs.docname = dirname envDocname →
      cs ∈ listingFilter data envDocname) := by
  refine ⟨fun data envDocname cs => List.mem_filter, by decide, ?_⟩
  intro data envDocname cs hv heq
  refine List.mem_filter.2 ⟨hv, ?_⟩
  rw [heq]
  exact isPrefixOf_self _

/-- Witness for the own-directory part of
`listing_prefix_is_raw_string_test`: the sample in `samples/basic` itself
appears in the listing of `samples/basic/index`. -/
theorem listing_prefix_is_raw_string_test_witness :
    ownDirSample ∈ dictValues xyzData.codeSamples ∧
    dirname ownDirSample.docname = dirname "samples/basic/index" ∧
    ownDirSample ∈ listingFilter xyzData "samples/basic/index" :=
  ⟨by decide, by decide,
    listing_prefix_is_raw_string_test.2.2 xyzData "samples/basic/index" ownDirSample
      (by decide) (by decide)⟩
